import Mathlib

/-!
Verification development for the arcadian-gsc-insights core:
shallow embedding of the daily aggregator (`lib/aggregator.ts`), the
range summarizer (`lib/insights-builder.ts`), the row ingestor
(`lib/csv-parser.ts`) and the rate limiter (`lib/security.ts`),
together with theorems settling the specification's claims.

Modelling conventions:
* JavaScript numbers are modelled as rationals (`ℚ`); a value that may be
  `NaN` or `±Infinity` is modelled as `Option ℚ`, with `none` standing for
  any non-finite value, so that `isFinite(x) ? x : 0` becomes `Option.getD x 0`.
* A JavaScript `Map` keyed by strings is modelled as an association list
  that preserves insertion order: `set` on a present key updates in place,
  on an absent key appends at the end — exactly the iteration-order
  semantics of `Map`.
* `Array.prototype.sort` with a `localeCompare` comparator is modelled as a
  sort by the string order `≤` (the date keys are fixed-format ASCII dates,
  where code-point order and locale order agree).
* Functions that `throw` are modelled in `Except String`.
-/

/-- JS `Map.get`, on the association-list model. -/
def mapGet {α : Type} (m : List (String × α)) (k : String) : Option α :=
  match m with
  | [] => none
  | (k₁, v₁) :: rest => if k₁ = k then some v₁ else mapGet rest k

/-- JS `Map.set`, on the association-list model: update in place when the key
is present, append when absent (preserving `Map` iteration order). -/
def mapSet {α : Type} (m : List (String × α)) (k : String) (v : α) : List (String × α) :=
  match m with
  | [] => [(k, v)]
  | (k₁, v₁) :: rest => if k₁ = k then (k, v) :: rest else (k₁, v₁) :: mapSet rest k v

/-- The model of JS `String.prototype.trim`: strip leading and trailing
whitespace.  (Lean's own `String.trim` is not kernel-reducible, so the model
is phrased over the character list.) -/
def jsTrim (s : String) : String :=
  ⟨((s.data.dropWhile Char.isWhitespace).reverse.dropWhile Char.isWhitespace).reverse⟩

/-- Lexicographic comparison of character lists, modelling the ordering that
`a.localeCompare(b)` induces on the fixed-format ASCII date keys. -/
def lexLe : List Char → List Char → Bool
  | [], _ => true
  | _ :: _, [] => false
  | a :: as, b :: bs => if a < b then true else if b < a then false else lexLe as bs

/-- The comparator `(a, b) => a.localeCompare(b) <= 0` on date keys. -/
def dateLe (a b : String) : Bool := lexLe a.data b.data

/-- One parsed CSV row (`CSVRow` in `types/index.ts`).  The four numeric
fields are `Option ℚ`: `none` models a non-finite JS number (`NaN`/`±Infinity`),
`some q` a finite value `q`. -/
structure CSVRow where
  analytics_date : String
  keyword : String
  page_url : String
  clicks : Option ℚ
  impressions : Option ℚ
  ctr : Option ℚ
  position : Option ℚ
  analytics_type : String
  device : String
deriving DecidableEq, Repr

/-- The value `isFinite(x) ? x : 0` from `aggregator.ts` lines 68–71. -/
def finiteOrZero (x : Option ℚ) : ℚ := x.getD 0

/-- The per-date accumulator of `buildDailyAggregates` (`aggregator.ts` lines 39–44). -/
structure DayAcc where
  clicks : ℚ
  impressions : ℚ
  ctrWeightedSum : ℚ
  positionWeightedSum : ℚ
deriving DecidableEq, Repr

/-- The zero-initialised accumulator (`aggregator.ts` lines 59–64). -/
def emptyAcc : DayAcc := ⟨0, 0, 0, 0⟩

/-- Folding one row into an accumulator (`aggregator.ts` lines 66–80). -/
def accRow (acc : DayAcc) (row : CSVRow) : DayAcc :=
  let clicks := finiteOrZero row.clicks
  let impressions := finiteOrZero row.impressions
  let ctr := finiteOrZero row.ctr
  let position := finiteOrZero row.position
  { clicks := acc.clicks + clicks
    impressions := acc.impressions + impressions
    ctrWeightedSum := acc.ctrWeightedSum + ctr * impressions
    positionWeightedSum := acc.positionWeightedSum + position * impressions }

/-- The body of the `for await` loop of `buildDailyAggregates`
(`aggregator.ts` lines 50–84): skip rows whose date is empty or
whitespace-only (`!date || date.trim() === ''` is equivalent to
`jsTrim date = ""` since the empty string trims to itself), otherwise fold the row into
the accumulator stored under its (exact, untrimmed) date key. -/
def foldRow (m : List (String × DayAcc)) (row : CSVRow) : List (String × DayAcc) :=
  if jsTrim row.analytics_date = "" then m
  else
    mapSet m row.analytics_date
      (accRow ((mapGet m row.analytics_date).getD emptyAcc) row)

/-- The fully folded `dateMap` of `buildDailyAggregates`. -/
def dateMapOf (rows : List CSVRow) : List (String × DayAcc) :=
  rows.foldl foldRow []

/-- One finalized per-date record (`DailyAggregate` in `types/index.ts`). -/
structure DailyAggregate where
  date : String
  clicks : ℚ
  impressions : ℚ
  ctr : ℚ
  position : ℚ
deriving DecidableEq, Repr

/-- A default record used with `List.getD` where the source indexes arrays. -/
def dfltAgg : DailyAggregate := ⟨"", 0, 0, 0, 0⟩

/-- Finalizing one accumulator into a `DailyAggregate`
(`aggregator.ts` lines 99–118).  The sums of finite rationals are finite,
so the final `isFinite` re-checks on lines 108–117 are identities. -/
def finalizeAcc (date : String) (a : DayAcc) : DailyAggregate :=
  { date := date
    clicks := a.clicks
    impressions := a.impressions
    ctr := if a.impressions > 0 then a.ctrWeightedSum / a.impressions else 0
    position := if a.impressions > 0 then a.positionWeightedSum / a.impressions else 0 }

/-- Sorting a collection by date key, the model of
`arr.sort((a, b) => a.date.localeCompare(b.date))`. -/
def sortByDate (series : List DailyAggregate) : List DailyAggregate :=
  List.insertionSort (fun a b => dateLe a.date b.date = true) series

/-- The daily aggregator (`buildDailyAggregates`, `aggregator.ts` lines 34–125):
fold every row into the per-date map, fail when no valid row was seen,
otherwise finalize every accumulator and sort the result by date key. -/
def buildDailyAggregates (rows : List CSVRow) : Except String (List DailyAggregate) :=
  let m := dateMapOf rows
  if m.isEmpty then
    .error "No valid data found in CSV file. The file may be empty or contain only invalid rows."
  else
    .ok (sortByDate (m.map (fun p => finalizeAcc p.1 p.2)))

/-- A `{date, clicks}` pair as produced for `peakDay`/`troughDay`. -/
structure DayClicks where
  date : String
  clicks : ℚ
deriving DecidableEq, Repr

/-- A `{date, change}` pair as produced for `biggestSpike`/`biggestDrop`. -/
structure DateChange where
  date : String
  change : ℚ
deriving DecidableEq, Repr

/-- The result record of `calculateTrends` (`insights-builder.ts` lines 183–196). -/
structure Trends where
  clicksChange : ℚ
  impressionsChange : ℚ
  peakDay : DayClicks
  troughDay : DayClicks
  biggestSpike : DateChange
  biggestDrop : DateChange
deriving DecidableEq, Repr

/-- The trend calculator (`calculateTrends`, `insights-builder.ts` lines 112–197).
The two record scans for peak/trough (JS lines 153–163, one loop over the
whole sorted array starting from `sorted[0]`) are modelled as two folds with
initial value the head; the first comparison of the head against itself is a
no-op, as in the source.  The day-over-day scan (lines 166–181) runs over
consecutive pairs. -/
def calculateTrends (series : List DailyAggregate) : Trends :=
  if series.isEmpty then
    ⟨0, 0, ⟨"", 0⟩, ⟨"", 0⟩, ⟨"", 0⟩, ⟨"", 0⟩⟩
  else
    let sorted := sortByDate series
    if sorted.length = 1 then
      let singleDay := sorted.headD dfltAgg
      ⟨0, 0, ⟨singleDay.date, singleDay.clicks⟩, ⟨singleDay.date, singleDay.clicks⟩,
        ⟨"", 0⟩, ⟨"", 0⟩⟩
    else
      let firstDay := sorted.headD dfltAgg
      let lastDay := sorted.getLastD dfltAgg
      let clicksChange :=
        if firstDay.clicks > 0 then (lastDay.clicks - firstDay.clicks) / firstDay.clicks * 100
        else 0
      let impressionsChange :=
        if firstDay.impressions > 0 then
          (lastDay.impressions - firstDay.impressions) / firstDay.impressions * 100
        else 0
      let peakDay := sorted.foldl (fun best a => if a.clicks > best.clicks then a else best)
        (sorted.headD dfltAgg)
      let troughDay := sorted.foldl (fun best a => if a.clicks < best.clicks then a else best)
        (sorted.headD dfltAgg)
      let biggestSpike := (sorted.zip sorted.tail).foldl
        (fun best p => if p.2.clicks - p.1.clicks > best.change
          then ⟨p.2.date, p.2.clicks - p.1.clicks⟩ else best) ⟨"", 0⟩
      let biggestDrop := (sorted.zip sorted.tail).foldl
        (fun best p => if p.2.clicks - p.1.clicks < best.change
          then ⟨p.2.date, p.2.clicks - p.1.clicks⟩ else best) ⟨"", 0⟩
      ⟨clicksChange, impressionsChange, ⟨peakDay.date, peakDay.clicks⟩,
        ⟨troughDay.date, troughDay.clicks⟩, biggestSpike, biggestDrop⟩

/-- The mean of the clicks series (`insights-builder.ts` line 232). -/
def meanOf (series : List DailyAggregate) : ℚ :=
  (series.map (fun a => a.clicks)).sum / series.length

/-- The population variance of the clicks series (`insights-builder.ts`
lines 235–236): mean of squared differences from the mean. -/
def varianceOf (series : List DailyAggregate) : ℚ :=
  ((series.map (fun a => (a.clicks - meanOf series) ^ 2)).sum) / series.length

/-- One flagged anomaly (`insights-builder.ts` lines 253–257).  The source also
stores the `zScore` field `(clicks - mean) / sqrt(variance)`, an irrational
real determined by `clicks` and the series; it is omitted from the model,
which tracks which points are flagged. -/
structure Anomaly where
  date : String
  clicks : ℚ
deriving DecidableEq, Repr

/-- The anomaly detector (`detectAnomalies`, `insights-builder.ts` lines
224–262).  The source computes `stdDev = Math.sqrt(variance)`, returns `[]`
when `stdDev === 0` (equivalently `variance === 0`, since `variance ≥ 0`),
and flags points with `|clicks - mean| / stdDev > 2`.  Over the rationals the
flag test is embedded in its exactly equivalent squared form
`(clicks - mean)^2 > 4 * variance` (see `abs_div_sqrt_gt_two_iff` below for
the proof of equivalence over ℝ). -/
def detectAnomalies (series : List DailyAggregate) : List Anomaly :=
  if series.length < 3 then []
  else
    let mean := meanOf series
    let variance := varianceOf series
    if variance = 0 then []
    else
      (series.filter (fun a => 4 * variance < (a.clicks - mean) ^ 2)).map
        (fun a => ⟨a.date, a.clicks⟩)

/-- The peak-index scan of `downsampleSeries` (`insights-builder.ts` lines
302–312): linear scan keeping the first index of strictly larger clicks. -/
def peakIdxOf (sorted : List DailyAggregate) : ℕ :=
  (List.range sorted.length).foldl
    (fun best i =>
      if (sorted.getD i dfltAgg).clicks > (sorted.getD best dfltAgg).clicks then i else best) 0

/-- The trough-index scan of `downsampleSeries` (`insights-builder.ts` lines
302–312): linear scan keeping the first index of strictly smaller clicks. -/
def troughIdxOf (sorted : List DailyAggregate) : ℕ :=
  (List.range sorted.length).foldl
    (fun best i =>
      if (sorted.getD i dfltAgg).clicks < (sorted.getD best dfltAgg).clicks then i else best) 0

/-- The sampled index set of `downsampleSeries` (`insights-builder.ts` lines
314–333): the JS `Set` holding every multiple of `step` below `n` together
with `0`, `n - 1`, the peak index and the trough index, listed in ascending
numeric order (`Array.from(sampled).sort((a, b) => a - b)`).  A set of
distinct naturals below `n` in ascending order is exactly a filter of
`List.range n`; the peak and trough indices are always below `n`.
`Math.ceil(n / maxPoints)` is the rounded-up division `(n + maxPoints - 1) / maxPoints`. -/
def sampledIndices (sorted : List DailyAggregate) (maxPoints : ℕ) : List ℕ :=
  let step := (sorted.length + maxPoints - 1) / maxPoints
  (List.range sorted.length).filter
    (fun i => i % step = 0 || i = 0 || i = sorted.length - 1
      || i = peakIdxOf sorted || i = troughIdxOf sorted)

/-- The downsampler (`downsampleSeries`, `insights-builder.ts` lines 293–341):
return short series unchanged; otherwise sort by date, sample the index set,
truncate to the first `maxPoints` indices when the set is still too large
(`indices.slice(0, maxPoints)`), and map the surviving indices back to records. -/
def downsampleSeries (series : List DailyAggregate) (maxPoints : ℕ) : List DailyAggregate :=
  if series.length ≤ maxPoints then series
  else
    let sorted := sortByDate series
    let indices := sampledIndices sorted maxPoints
    let finalIndices := if indices.length > maxPoints then indices.take maxPoints else indices
    finalIndices.map (fun i => sorted.getD i dfltAgg)

/-- One record as delivered by the underlying `csv-parse` stream to the row
loop of `streamParseCSV` (`csv-parser.ts` lines 56–99).  String fields are
`Option String` (`none` for a missing column, i.e. `undefined`).  The four
numeric fields carry the value that `parseFloat` reads from the raw text:
`none` when the text is missing, empty, whitespace-only or unparsable
(`parseFloat` gives `NaN`), `some q` when it parses to the finite number `q`;
`parseNumericField` (lines 132–139) then maps all of the `none` cases to `0`. -/
structure ParsedRecord where
  analytics_date : Option String
  keyword : Option String
  page_url : Option String
  clicks : Option ℚ
  impressions : Option ℚ
  ctr : Option ℚ
  position : Option ℚ
  analytics_type : Option String
  device : Option String
deriving DecidableEq, Repr

/-- `parseNumericField` (`csv-parser.ts` lines 132–139) on the modelled
`parseFloat` reading: empty/missing/invalid values become `0`. -/
def parseNumericField (value : Option ℚ) : ℚ := value.getD 0

/-- Building the yielded `CSVRow` from a parsed record
(`csv-parser.ts` lines 75–90); `record.field || ''` becomes `getD ""`. -/
def mkRow (r : ParsedRecord) : CSVRow :=
  { analytics_date := r.analytics_date.getD ""
    keyword := r.keyword.getD ""
    page_url := r.page_url.getD ""
    clicks := some (parseNumericField r.clicks)
    impressions := some (parseNumericField r.impressions)
    ctr := some (parseNumericField r.ctr)
    position := some (parseNumericField r.position)
    analytics_type := r.analytics_type.getD ""
    device := r.device.getD "" }

/-- The `maxErrors` budget (`csv-parser.ts` line 32). -/
def maxErrors : ℕ := 100

/-- The row loop of `streamParseCSV` (`csv-parser.ts` lines 56–99), threading
`rowCount`, `errorCount` and the list of yielded rows (accumulated in reverse).
Skips duplicate header rows; counts and skips rows whose date key is missing,
empty or whitespace-only (`!record.analytics_date || trim === ''`), failing
once the error budget is exceeded; otherwise yields the converted row. -/
def parseLoop : List ParsedRecord → ℕ → ℕ → List CSVRow → Except String (ℕ × ℕ × List CSVRow)
  | [], rowCount, errorCount, acc => .ok (rowCount, errorCount, acc.reverse)
  | r :: rest, rowCount, errorCount, acc =>
    let rowCount := rowCount + 1
    if r.analytics_date = some "analytics_date" then
      parseLoop rest rowCount errorCount acc
    else if jsTrim (r.analytics_date.getD "") = "" then
      let errorCount := errorCount + 1
      if errorCount > maxErrors then
        .error "Too many invalid rows. CSV file may be corrupted."
      else parseLoop rest rowCount errorCount acc
    else
      parseLoop rest rowCount errorCount (mkRow r :: acc)

/-- The row ingestor (`streamParseCSV`, `csv-parser.ts` lines 29–121), as a
function from the stream of parsed records to the stream of yielded rows:
run the row loop, then fail when the parser produced zero rows
(`if (rowCount === 0)`, line 101).  `.ok rows` models the generator
completing normally having yielded `rows`. -/
def streamParseCSV (records : List ParsedRecord) : Except String (List CSVRow) :=
  match parseLoop records 0 0 [] with
  | .error e => .error e
  | .ok (rowCount, _, rows) =>
    if rowCount = 0 then
      .error "CSV file is empty or contains no valid data rows"
    else .ok rows

/-- One token bucket of the rate limiter (`security.ts` line 88).
Timestamps (`Date.now()` milliseconds) are modelled as rationals. -/
structure Bucket where
  tokens : ℚ
  lastRefill : ℚ
deriving DecidableEq, Repr

/-- The state of a `RateLimiter` instance (`security.ts` lines 87–100). -/
structure RateLimiterState where
  buckets : List (String × Bucket)
  maxTokens : ℚ
  refillRate : ℚ
deriving DecidableEq, Repr

/-- The constructor `new RateLimiter(maxTokens, refillPerMinute)`
(`security.ts` lines 93–100): empty bucket map, rate converted to tokens
per millisecond. -/
def mkRateLimiter (maxTokens refillPerMinute : ℚ) : RateLimiterState :=
  ⟨[], maxTokens, refillPerMinute / 60000⟩

/-- The global instance `insightsRateLimiter = new RateLimiter(10, 10)`
(`security.ts` line 157). -/
def insightsRateLimiter : RateLimiterState := mkRateLimiter 10 10

/-- `RateLimiter.checkLimit` (`security.ts` lines 108–131), with `Date.now()`
passed explicitly as `now`: fetch or create the caller's bucket (a fresh
bucket holds `maxTokens` and refills nothing since `lastRefill = now`),
refill lazily from elapsed time capped at capacity, then admit and consume
one token when at least one token is available, else reject. -/
def checkLimit (s : RateLimiterState) (identifier : String) (now : ℚ) :
    Bool × RateLimiterState :=
  let bucket := (mapGet s.buckets identifier).getD ⟨s.maxTokens, now⟩
  let timeSinceRefill := now - bucket.lastRefill
  let tokensToAdd := timeSinceRefill * s.refillRate
  let tokens := min s.maxTokens (bucket.tokens + tokensToAdd)
  if tokens ≥ 1 then
    (true, { s with buckets := mapSet s.buckets identifier ⟨tokens - 1, now⟩ })
  else
    (false, { s with buckets := mapSet s.buckets identifier ⟨tokens, now⟩ })

/-- Iterating `checkLimit` for one caller at one fixed instant, returning the
list of admission results in order together with the final state. -/
def checkN (s : RateLimiterState) (identifier : String) (now : ℚ) :
    ℕ → List Bool × RateLimiterState
  | 0 => ([], s)
  | n + 1 =>
    let r := checkLimit s identifier now
    let rest := checkN r.2 identifier now n
    (r.1 :: rest.1, rest.2)

lemma mapGet_mapSet_self {α : Type} (m : List (String × α)) (k : String) (v : α) :
    mapGet (mapSet m k v) k = some v := by
  induction m with
  | nil => simp [mapGet, mapSet]
  | cons p rest ih =>
    obtain ⟨k₁, v₁⟩ := p
    by_cases h : k₁ = k
    · simp [mapGet, mapSet, h]
    · simp [mapGet, mapSet, h, ih]

lemma mapGet_mapSet_ne {α : Type} (m : List (String × α)) (k k' : String) (v : α)
    (h : k ≠ k') : mapGet (mapSet m k v) k' = mapGet m k' := by
  induction m with
  | nil => simp [mapGet, mapSet, h]
  | cons p rest ih =>
    obtain ⟨k₁, v₁⟩ := p
    by_cases h₁ : k₁ = k
    · subst h₁; simp [mapGet, mapSet, h, Ne.symm h]
    · by_cases h₂ : k₁ = k'
      · subst h₂; simp [mapGet, mapSet, h₁]
      · simp [mapGet, mapSet, h₁, h₂, ih]

lemma mem_mapSet {α : Type} (m : List (String × α)) (k : String) (v : α)
    {p : String × α} (h : p ∈ mapSet m k v) : p ∈ m ∨ p.1 = k := by
  induction m with
  | nil =>
    simp [mapSet] at h
    right; simp [h]
  | cons q rest ih =>
    obtain ⟨k₁, v₁⟩ := q
    by_cases h₁ : k₁ = k
    · rw [show mapSet ((k₁, v₁) :: rest) k v = (k, v) :: rest by simp [mapSet, h₁]] at h
      rcases List.mem_cons.mp h with h' | h'
      · right; simp [h']
      · left; exact List.mem_cons_of_mem _ h'
    · rw [show mapSet ((k₁, v₁) :: rest) k v = (k₁, v₁) :: mapSet rest k v by
        simp [mapSet, h₁]] at h
      rcases List.mem_cons.mp h with h' | h'
      · left; exact List.mem_cons.mpr (Or.inl h')
      · rcases ih h' with h'' | h''
        · left; exact List.mem_cons_of_mem _ h''
        · right; exact h''

lemma nodupKeys_mapSet {α : Type} (m : List (String × α)) (k : String) (v : α)
    (h : (m.map Prod.fst).Nodup) : ((mapSet m k v).map Prod.fst).Nodup := by
  induction m with
  | nil => simp [mapSet]
  | cons p rest ih =>
    obtain ⟨k₁, v₁⟩ := p
    rw [List.map_cons, List.nodup_cons] at h
    by_cases h₁ : k₁ = k
    · subst h₁
      rw [show mapSet ((k₁, v₁) :: rest) k₁ v = (k₁, v) :: rest by simp [mapSet]]
      rw [List.map_cons, List.nodup_cons]
      exact h
    · rw [show mapSet ((k₁, v₁) :: rest) k v = (k₁, v₁) :: mapSet rest k v by
        simp [mapSet, h₁]]
      rw [List.map_cons, List.nodup_cons]
      refine ⟨?_, ih h.2⟩
      intro hx
      rcases List.mem_map.mp hx with ⟨q, hq, hq1⟩
      rcases mem_mapSet rest k v hq with h' | h'
      · exact h.1 (by rw [← hq1]; exact List.mem_map_of_mem Prod.fst h')
      · exact h₁ (hq1.symm.trans h')

lemma mapGet_eq_of_mem {α : Type} (m : List (String × α))
    (h : (m.map Prod.fst).Nodup) {k : String} {v : α} (hm : (k, v) ∈ m) :
    mapGet m k = some v := by
  induction m with
  | nil => simp at hm
  | cons p rest ih =>
    obtain ⟨k₁, v₁⟩ := p
    rw [List.map_cons, List.nodup_cons] at h
    rcases List.mem_cons.mp hm with h' | h'
    · injection h' with hk hv
      subst hk; subst hv
      simp [mapGet]
    · have hne : k₁ ≠ k := by
        intro hk
        exact h.1 (by rw [hk]; exact List.mem_map.mpr ⟨(k, v), h', rfl⟩)
      simp [mapGet, hne, ih h.2 h']

/-- Reference sum: total clicks of a row list, with non-finite values as zero. -/
def sumClicks (rows : List CSVRow) : ℚ :=
  (rows.map (fun r => finiteOrZero r.clicks)).sum

/-- Reference sum: total impressions of a row list, with non-finite values as zero. -/
def sumImpressions (rows : List CSVRow) : ℚ :=
  (rows.map (fun r => finiteOrZero r.impressions)).sum

/-- Reference sum: `Σ ctr_i × impressions_i` over a row list. -/
def sumCtrW (rows : List CSVRow) : ℚ :=
  (rows.map (fun r => finiteOrZero r.ctr * finiteOrZero r.impressions)).sum

/-- Reference sum: `Σ position_i × impressions_i` over a row list. -/
def sumPosW (rows : List CSVRow) : ℚ :=
  (rows.map (fun r => finiteOrZero r.position * finiteOrZero r.impressions)).sum

lemma foldl_accRow (F : List CSVRow) (a : DayAcc) :
    F.foldl accRow a =
      ⟨a.clicks + sumClicks F, a.impressions + sumImpressions F,
        a.ctrWeightedSum + sumCtrW F, a.positionWeightedSum + sumPosW F⟩ := by
  induction F generalizing a with
  | nil => simp [sumClicks, sumImpressions, sumCtrW, sumPosW]
  | cons r rest ih =>
    rw [List.foldl_cons, ih]
    simp only [accRow, sumClicks, sumImpressions, sumCtrW, sumPosW, List.map_cons,
      List.sum_cons]
    congr 1 <;> ring

/-- The effect on one key of folding a batch of rows into the date map:
nothing when no row hits the key, otherwise the accumulated fold. -/
def applyRows (o : Option DayAcc) (F : List CSVRow) : Option DayAcc :=
  if F.isEmpty then o else some (F.foldl accRow (o.getD emptyAcc))

/-- The predicate selecting the valid rows grouped under date key `d`. -/
def hitsKey (d : String) (r : CSVRow) : Bool :=
  decide (r.analytics_date = d ∧ jsTrim r.analytics_date ≠ "")

lemma applyRows_some (a : DayAcc) (F : List CSVRow) :
    applyRows (some a) F = some (F.foldl accRow a) := by
  cases F <;> simp [applyRows]

lemma foldl_foldRow_mapGet (rows : List CSVRow) (m : List (String × DayAcc)) (d : String) :
    mapGet (rows.foldl foldRow m) d = applyRows (mapGet m d) (rows.filter (hitsKey d)) := by
  induction rows generalizing m with
  | nil => simp [applyRows]
  | cons r rest ih =>
    rw [List.foldl_cons]
    by_cases hval : jsTrim r.analytics_date = ""
    · have h₁ : foldRow m r = m := by simp [foldRow, hval]
      have h₂ : hitsKey d r = false := by simp [hitsKey, hval]
      rw [h₁, List.filter_cons_of_neg (by simp [h₂]), ih]
    · by_cases hd : r.analytics_date = d
      · have hvald : ¬ jsTrim d = "" := hd ▸ hval
        have h₁ : foldRow m r =
            mapSet m d (accRow ((mapGet m d).getD emptyAcc) r) := by
          simp [foldRow, hval, hd, hvald]
        have h₂ : hitsKey d r = true := by simp [hitsKey, hd, hvald]
        rw [h₁, List.filter_cons_of_pos (by simp [h₂]), ih, mapGet_mapSet_self,
          applyRows_some]
        cases hF : rest.filter (hitsKey d) <;>
          simp [applyRows, List.foldl_cons]
      · have h₁ : foldRow m r =
            mapSet m r.analytics_date
              (accRow ((mapGet m r.analytics_date).getD emptyAcc) r) := by
          simp [foldRow, hval]
        have h₂ : hitsKey d r = false := by simp [hitsKey, hd]
        rw [h₁, List.filter_cons_of_neg (by simp [h₂]), ih,
          mapGet_mapSet_ne _ _ _ _ hd]

lemma dateMapOf_keys_valid (rows : List CSVRow) :
    ∀ p ∈ dateMapOf rows, ¬ jsTrim p.1 = "" := by
  have main : ∀ (rows : List CSVRow) (m : List (String × DayAcc)),
      (∀ p ∈ m, ¬ jsTrim p.1 = "") → ∀ p ∈ rows.foldl foldRow m, ¬ jsTrim p.1 = "" := by
    intro rows
    induction rows with
    | nil => intro m hm; simpa using hm
    | cons r rest ih =>
      intro m hm
      rw [List.foldl_cons]
      by_cases hval : jsTrim r.analytics_date = ""
      · rw [show foldRow m r = m by simp [foldRow, hval]]
        exact ih m hm
      · rw [show foldRow m r = mapSet m r.analytics_date
            (accRow ((mapGet m r.analytics_date).getD emptyAcc) r) by
              simp [foldRow, hval]]
        refine ih _ ?_
        intro p hp
        rcases mem_mapSet _ _ _ hp with h' | h'
        · exact hm p h'
        · rw [h']; exact hval
  intro p hp
  exact main rows [] (by simp) p hp

lemma dateMapOf_keys_nodup (rows : List CSVRow) :
    ((dateMapOf rows).map Prod.fst).Nodup := by
  have main : ∀ (rows : List CSVRow) (m : List (String × DayAcc)),
      (m.map Prod.fst).Nodup → ((rows.foldl foldRow m).map Prod.fst).Nodup := by
    intro rows
    induction rows with
    | nil => intro m hm; simpa using hm
    | cons r rest ih =>
      intro m hm
      rw [List.foldl_cons]
      by_cases hval : jsTrim r.analytics_date = ""
      · rw [show foldRow m r = m by simp [foldRow, hval]]
        exact ih m hm
      · rw [show foldRow m r = mapSet m r.analytics_date
            (accRow ((mapGet m r.analytics_date).getD emptyAcc) r) by
              simp [foldRow, hval]]
        exact ih _ (nodupKeys_mapSet _ _ _ hm)
  exact main rows [] (by simp)

/-- Characterization of one date-map entry: its accumulator holds exactly the
four reference sums over the rows grouped under its key. -/
lemma dateMapOf_entry (rows : List CSVRow) {d : String} {a : DayAcc}
    (h : (d, a) ∈ dateMapOf rows) :
    rows.filter (hitsKey d) ≠ [] ∧
      a = ⟨sumClicks (rows.filter (hitsKey d)), sumImpressions (rows.filter (hitsKey d)),
        sumCtrW (rows.filter (hitsKey d)), sumPosW (rows.filter (hitsKey d))⟩ := by
  have hget : mapGet (dateMapOf rows) d = some a :=
    mapGet_eq_of_mem _ (dateMapOf_keys_nodup rows) h
  rw [dateMapOf, foldl_foldRow_mapGet rows [] d] at hget
  simp only [mapGet] at hget
  by_cases hF : rows.filter (hitsKey d) = []
  · rw [hF] at hget
    simp [applyRows] at hget
  · refine ⟨hF, ?_⟩
    rw [applyRows, if_neg (by simpa using hF)] at hget
    have := hget
    rw [Option.some_inj] at this
    rw [← this, foldl_accRow]
    simp [emptyAcc]

lemma mem_buildDailyAggregates {rows : List CSVRow} {aggs : List DailyAggregate}
    (h : buildDailyAggregates rows = .ok aggs) {a : DailyAggregate} (ha : a ∈ aggs) :
    ∃ p ∈ dateMapOf rows, a = finalizeAcc p.1 p.2 := by
  rw [buildDailyAggregates] at h
  by_cases he : (dateMapOf rows).isEmpty
  · simp [he] at h
  · simp only [he, if_neg, Bool.false_eq_true, not_false_iff, reduceIte] at h
    rw [Except.ok.injEq] at h
    subst h
    rw [sortByDate, List.mem_insertionSort] at ha
    rcases List.mem_map.mp ha with ⟨p, hp, hpa⟩
    exact ⟨p, hp, hpa.symm⟩

lemma filter_dateKey_eq_hitsKey (rows : List CSVRow) (d : String)
    (hd : ¬ jsTrim d = "") :
    rows.filter (fun r => decide (r.analytics_date = d)) = rows.filter (hitsKey d) := by
  apply List.filter_congr
  intro r _
  by_cases h : r.analytics_date = d
  · simp [hitsKey, h, hd]
  · simp [hitsKey, h]

/-- C1: for every date key of the aggregator output, when the impressions
sum over that date's rows is positive, `ctr` and `position` are the
impression-weighted means; otherwise (zero or negative sum) both are zero.
Finiteness of the outputs is inherent in the rational-number model. -/
theorem buildDailyAggregates_weighted_metrics (rows : List CSVRow)
    (aggs : List DailyAggregate) (h : buildDailyAggregates rows = .ok aggs)
    (a : DailyAggregate) (ha : a ∈ aggs) :
    (0 < sumImpressions (rows.filter (fun r => decide (r.analytics_date = a.date))) →
      a.ctr = sumCtrW (rows.filter (fun r => decide (r.analytics_date = a.date))) /
          sumImpressions (rows.filter (fun r => decide (r.analytics_date = a.date))) ∧
      a.position = sumPosW (rows.filter (fun r => decide (r.analytics_date = a.date))) /
          sumImpressions (rows.filter (fun r => decide (r.analytics_date = a.date)))) ∧
    (¬ 0 < sumImpressions (rows.filter (fun r => decide (r.analytics_date = a.date))) →
      a.ctr = 0 ∧ a.position = 0) := by
  rcases mem_buildDailyAggregates h ha with ⟨⟨d, acc⟩, hmem, haf⟩
  have hdval : ¬ jsTrim d = "" := dateMapOf_keys_valid rows (d, acc) hmem
  have hdate : a.date = d := by rw [haf]; rfl
  rw [hdate, filter_dateKey_eq_hitsKey rows d hdval]
  rcases dateMapOf_entry rows hmem with ⟨-, hacc⟩
  have hctr : a.ctr = if acc.impressions > 0 then acc.ctrWeightedSum / acc.impressions else 0 := by
    rw [haf]; rfl
  have hpos : a.position =
      if acc.impressions > 0 then acc.positionWeightedSum / acc.impressions else 0 := by
    rw [haf]; rfl
  have himp : acc.impressions = sumImpressions (rows.filter (hitsKey d)) := by rw [hacc]
  have hcw : acc.ctrWeightedSum = sumCtrW (rows.filter (hitsKey d)) := by rw [hacc]
  have hpw : acc.positionWeightedSum = sumPosW (rows.filter (hitsKey d)) := by rw [hacc]
  constructor
  · intro hposimp
    rw [hctr, hpos, himp, hcw, hpw, if_pos hposimp, if_pos hposimp]
    exact ⟨rfl, rfl⟩
  · intro hnonpos
    rw [hctr, hpos, himp, if_neg hnonpos, if_neg hnonpos]
    exact ⟨rfl, rfl⟩

/-- A row with a finite but negative impressions value. -/
def negRow : CSVRow :=
  ⟨"2024-01-01", "", "", some 0, some (-1), some 1, some 0, "", ""⟩

/-- The aggregate the code produces from `negRow` alone. -/
def negAgg : DailyAggregate := ⟨"2024-01-01", 0, -1, 0, 0⟩

/-- C1 counterexample: on the single-row input `negRow` (date's impressions
sum `-1`, nonzero), the code outputs `ctr = 0`, while the claimed formula
`Σ(ctr·impressions) / Σ(impressions)` evaluates to `1`. -/
theorem buildDailyAggregates_weighted_metrics_counterexample :
    buildDailyAggregates [negRow] = .ok [negAgg] ∧
    negAgg.ctr ≠ sumCtrW [negRow] / sumImpressions [negRow] := by
  constructor
  · have h1 : jsTrim "2024-01-01" = "2024-01-01" := by decide
    simp [buildDailyAggregates, dateMapOf, foldRow, negRow, h1, mapSet, mapGet, accRow,
      emptyAcc, finiteOrZero, sortByDate, List.insertionSort, finalizeAcc, negAgg]
  · norm_num [negAgg, sumCtrW, sumImpressions, negRow, finiteOrZero]

/-- A first sample row for witnesses: date 2024-02-01, ctr 1/2, 100 impressions. -/
def wRow1 : CSVRow := ⟨"2024-02-01", "", "", some 2, some 100, some (1/2), some 3, "", ""⟩

/-- A second sample row for witnesses: same date, ctr 1/4, 300 impressions. -/
def wRow2 : CSVRow := ⟨"2024-02-01", "", "", some 5, some 300, some (1/4), some 7, "", ""⟩

/-- The aggregate of `wRow1`/`wRow2`: weighted ctr `(50+75)/400 = 5/16`,
weighted position `(300+2100)/400 = 6`. -/
def wAgg : DailyAggregate := ⟨"2024-02-01", 7, 400, 5/16, 6⟩

lemma buildDailyAggregates_wRows : buildDailyAggregates [wRow1, wRow2] = .ok [wAgg] := by
  have h1 : jsTrim "2024-02-01" = "2024-02-01" := by decide
  simp [buildDailyAggregates, dateMapOf, foldRow, wRow1, wRow2, h1, mapSet, mapGet, accRow,
    emptyAcc, finiteOrZero, sortByDate, List.insertionSort, finalizeAcc, wAgg]
  norm_num

/-- C1 witness: the weighted-metrics theorem instantiated on the two-row
input `[wRow1, wRow2]`. -/
theorem buildDailyAggregates_weighted_metrics_witness :
    (0 < sumImpressions ([wRow1, wRow2].filter
        (fun r => decide (r.analytics_date = wAgg.date))) →
      wAgg.ctr = sumCtrW ([wRow1, wRow2].filter
            (fun r => decide (r.analytics_date = wAgg.date))) /
          sumImpressions ([wRow1, wRow2].filter
            (fun r => decide (r.analytics_date = wAgg.date))) ∧
      wAgg.position = sumPosW ([wRow1, wRow2].filter
            (fun r => decide (r.analytics_date = wAgg.date))) /
          sumImpressions ([wRow1, wRow2].filter
            (fun r => decide (r.analytics_date = wAgg.date)))) ∧
    (¬ 0 < sumImpressions ([wRow1, wRow2].filter
        (fun r => decide (r.analytics_date = wAgg.date))) →
      wAgg.ctr = 0 ∧ wAgg.position = 0) :=
  buildDailyAggregates_weighted_metrics [wRow1, wRow2] [wAgg]
    buildDailyAggregates_wRows wAgg (by simp)

/-- The clicks total of the date map. -/
def totalClicksMap (m : List (String × DayAcc)) : ℚ :=
  (m.map (fun p => p.2.clicks)).sum

lemma totalClicksMap_cons (p : String × DayAcc) (m : List (String × DayAcc)) :
    totalClicksMap (p :: m) = p.2.clicks + totalClicksMap m := by
  simp [totalClicksMap]

lemma totalClicksMap_mapSet (m : List (String × DayAcc)) (k : String) (v : DayAcc) :
    totalClicksMap (mapSet m k v) =
      totalClicksMap m + v.clicks - ((mapGet m k).getD emptyAcc).clicks := by
  induction m with
  | nil => simp [totalClicksMap, mapSet, mapGet, emptyAcc]
  | cons p rest ih =>
    obtain ⟨k₁, v₁⟩ := p
    by_cases h : k₁ = k
    · subst h
      simp [totalClicksMap, mapSet, mapGet]
      ring
    · simp only [mapSet, if_neg h]
      rw [totalClicksMap_cons, totalClicksMap_cons, ih,
        show mapGet ((k₁, v₁) :: rest) k = mapGet rest k by simp [mapGet, h]]
      ring

/-- The predicate selecting rows with a valid (non-blank) date key. -/
def validRow (r : CSVRow) : Bool := decide (jsTrim r.analytics_date ≠ "")

lemma totalClicksMap_foldl (rows : List CSVRow) (m : List (String × DayAcc)) :
    totalClicksMap (rows.foldl foldRow m) =
      totalClicksMap m + sumClicks (rows.filter validRow) := by
  induction rows generalizing m with
  | nil => simp [sumClicks]
  | cons r rest ih =>
    rw [List.foldl_cons]
    by_cases hval : jsTrim r.analytics_date = ""
    · rw [show foldRow m r = m by simp [foldRow, hval],
        List.filter_cons_of_neg (by simp [validRow, hval])]
      exact ih m
    · rw [show foldRow m r = mapSet m r.analytics_date
          (accRow ((mapGet m r.analytics_date).getD emptyAcc) r) by
            simp [foldRow, hval],
        List.filter_cons_of_pos (by simp [validRow, hval]), ih,
        totalClicksMap_mapSet]
      simp only [accRow, sumClicks, List.map_cons, List.sum_cons]
      ring

lemma sumClicks_filter_finite (rows : List CSVRow) :
    sumClicks (rows.filter validRow) =
      ((rows.filter (fun r => validRow r && decide (r.clicks ≠ none))).map
        (fun r => r.clicks.getD 0)).sum := by
  induction rows with
  | nil => simp [sumClicks]
  | cons r rest ih =>
    by_cases hval : validRow r = true
    · rw [List.filter_cons_of_pos hval]
      cases hc : r.clicks with
      | none =>
        rw [List.filter_cons_of_neg (by simp [hval, hc])]
        simp only [sumClicks, List.map_cons, List.sum_cons] at ih ⊢
        rw [ih]
        simp [finiteOrZero, hc]
      | some c =>
        rw [List.filter_cons_of_pos (by simp [hval, hc])]
        simp only [sumClicks, List.map_cons, List.sum_cons] at ih ⊢
        rw [ih]
        simp [finiteOrZero, hc]
    · rw [List.filter_cons_of_neg (by simp [hval]),
        List.filter_cons_of_neg (by simp [hval]), ih]

/-- C5: the clicks total of the aggregator output equals the clicks total of
the input rows that carry a valid date key and a finite clicks value. -/
theorem buildDailyAggregates_clicks_conservation (rows : List CSVRow)
    (aggs : List DailyAggregate) (h : buildDailyAggregates rows = .ok aggs) :
    (aggs.map (fun a => a.clicks)).sum =
      ((rows.filter (fun r => validRow r && decide (r.clicks ≠ none))).map
        (fun r => r.clicks.getD 0)).sum := by
  rw [buildDailyAggregates] at h
  by_cases he : (dateMapOf rows).isEmpty
  · simp [he] at h
  · simp only [he, Bool.false_eq_true, not_false_iff, reduceIte] at h
    rw [Except.ok.injEq] at h
    subst h
    simp only [sortByDate]
    have hperm : List.Perm
        ((List.insertionSort (fun a b => dateLe a.date b.date = true)
          ((dateMapOf rows).map (fun p => finalizeAcc p.1 p.2))).map (fun a => a.clicks))
        (((dateMapOf rows).map (fun p => finalizeAcc p.1 p.2)).map (fun a => a.clicks)) :=
      (List.perm_insertionSort _ _).map _
    rw [hperm.sum_eq, List.map_map]
    have hmm : ((dateMapOf rows).map ((fun a => a.clicks) ∘ fun p => finalizeAcc p.1 p.2)) =
        (dateMapOf rows).map (fun p => p.2.clicks) := by
      apply List.map_congr_left
      intro p _
      rfl
    rw [hmm]
    have := totalClicksMap_foldl rows []
    rw [show totalClicksMap [] = 0 by rfl, zero_add] at this
    rw [show ((dateMapOf rows).map fun p => p.2.clicks).sum = totalClicksMap (dateMapOf rows)
        from rfl]
    simp only [dateMapOf]
    rw [this, sumClicks_filter_finite]

/-- C5 witness: clicks conservation instantiated on the two-row input. -/
theorem buildDailyAggregates_clicks_conservation_witness :
    ([wAgg].map (fun a => a.clicks)).sum =
      (([wRow1, wRow2].filter (fun r => validRow r && decide (r.clicks ≠ none))).map
        (fun r => r.clicks.getD 0)).sum :=
  buildDailyAggregates_clicks_conservation [wRow1, wRow2] [wAgg] buildDailyAggregates_wRows

lemma varianceOf_nonneg (series : List DailyAggregate) : 0 ≤ varianceOf series := by
  rw [varianceOf]
  apply div_nonneg
  · apply List.sum_nonneg
    intro x hx
    rcases List.mem_map.mp hx with ⟨a, -, ha⟩
    rw [← ha]
    positivity
  · positivity

/-- Over the reals, the z-score test `|x| / sqrt v > 2` of the source is
exactly the squared test `4 v < x^2` whenever the variance `v` is positive. -/
lemma abs_div_sqrt_gt_two_iff (x v : ℝ) (hv : 0 < v) :
    2 < |x| / Real.sqrt v ↔ 4 * v < x ^ 2 := by
  have hs : 0 < Real.sqrt v := Real.sqrt_pos.mpr hv
  rw [lt_div_iff₀ hs]
  have key : 2 * Real.sqrt v < |x| ↔ (2 * Real.sqrt v) ^ 2 < |x| ^ 2 :=
    (pow_lt_pow_iff_left₀ (by positivity) (abs_nonneg x) (by norm_num)).symm
  rw [key, mul_pow, Real.sq_sqrt hv.le, sq_abs]
  constructor <;> intro h <;> nlinarith

/-- C7: membership in the anomaly list is characterized exactly: the series
must have at least 3 points, and a point is flagged iff its real z-score
`(clicks - mean) / sqrt(variance)` exceeds 2 in absolute value (for variance
zero the division yields 0, so nothing is flagged, matching the source's
early return). -/
theorem detectAnomalies_spec (series : List DailyAggregate) (a : Anomaly) :
    a ∈ detectAnomalies series ↔
      3 ≤ series.length ∧
      ∃ agg ∈ series, a = ⟨agg.date, agg.clicks⟩ ∧
        2 < |((agg.clicks : ℝ)) - ((meanOf series : ℚ) : ℝ)| /
          Real.sqrt ((varianceOf series : ℚ) : ℝ) := by
  by_cases h3 : series.length < 3
  · rw [detectAnomalies, if_pos h3]
    simp only [List.not_mem_nil, false_iff]
    rintro ⟨h3', -⟩
    omega
  · by_cases hv : varianceOf series = 0
    · rw [detectAnomalies, if_neg h3]
      simp only [hv, reduceIte, List.not_mem_nil, false_iff]
      rintro ⟨-, agg, -, -, hgt⟩
      norm_num at hgt
    · have hvR : (0 : ℝ) < ((varianceOf series : ℚ) : ℝ) := by
        have : 0 < varianceOf series :=
          lt_of_le_of_ne (varianceOf_nonneg series) (Ne.symm hv)
        exact_mod_cast this
      rw [detectAnomalies, if_neg h3]
      simp only [hv, reduceIte]
      constructor
      · intro ha
        rcases List.mem_map.mp ha with ⟨agg, hfil, hfa⟩
        rcases List.mem_filter.mp hfil with ⟨hmem, hp⟩
        refine ⟨by omega, agg, hmem, hfa.symm, ?_⟩
        rw [abs_div_sqrt_gt_two_iff _ _ hvR]
        have hq : 4 * varianceOf series < (agg.clicks - meanOf series) ^ 2 :=
          of_decide_eq_true hp
        exact_mod_cast hq
      · rintro ⟨-, agg, hmem, haf, hgt⟩
        rw [abs_div_sqrt_gt_two_iff _ _ hvR] at hgt
        refine List.mem_map.mpr ⟨agg, List.mem_filter.mpr ⟨hmem, ?_⟩, haf.symm⟩
        apply decide_eq_true
        have : ((4 * varianceOf series : ℚ) : ℝ) <
            (((agg.clicks - meanOf series : ℚ)) : ℝ) ^ 2 := by
          push_cast
          convert hgt using 2
        exact_mod_cast this

/-- A bare daily aggregate carrying only a date key and a clicks value. -/
def mkAgg (d : String) (c : ℚ) : DailyAggregate := ⟨d, c, 0, 0, 0⟩

/-- The spec's 5-day example series with clicks `[100, 120, 90, 400, 110]`. -/
def ex5 : List DailyAggregate :=
  [mkAgg "2024-01-01" 100, mkAgg "2024-01-02" 120, mkAgg "2024-01-03" 90,
   mkAgg "2024-01-04" 400, mkAgg "2024-01-05" 110]

lemma detectAnomalies_ex5 : detectAnomalies ex5 = [] := by
  have hm : meanOf ex5 = 164 := by norm_num [meanOf, ex5, mkAgg]
  have hv : varianceOf ex5 = 14024 := by
    rw [varianceOf, hm]
    norm_num [ex5, mkAgg]
  rw [detectAnomalies, if_neg (by decide), if_neg (by rw [hv]; norm_num)]
  rw [show (List.filter
      (fun a => decide (4 * varianceOf ex5 < (a.clicks - meanOf ex5) ^ 2)) ex5) =
      [] from ?_]
  · rfl
  · rw [List.filter_eq_nil_iff]
    intro a ha
    rw [hv, hm]
    fin_cases ha <;> norm_num [mkAgg]

/-- C4 counterexample: on the example series the code flags day 4 as no
anomaly at all (its z-score is 236/√14024 ≈ 1.99, not above 2). -/
theorem calculateTrends_ex5_counterexample :
    (⟨"2024-01-04", 400⟩ : Anomaly) ∉ detectAnomalies ex5 := by
  rw [detectAnomalies_ex5]
  exact List.not_mem_nil _

/-- C4 (amended): on the 5-day example the trends are as claimed (peak day 4
with 400 clicks, trough day 3 with 90, spike +310 ending day 4, drop −290
ending day 5), the clicks mean is 164 and the population variance 14024, so
the standard deviation is √14024 ≈ 118.4; day 4's z-score 236/√14024 does
not exceed 2, and the anomaly list is empty. -/
theorem calculateTrends_ex5 :
    calculateTrends ex5 =
      ⟨10, 0, ⟨"2024-01-04", 400⟩, ⟨"2024-01-03", 90⟩, ⟨"2024-01-04", 310⟩,
        ⟨"2024-01-05", -290⟩⟩ ∧
    meanOf ex5 = 164 ∧ varianceOf ex5 = 14024 ∧
    ¬ (2 < |((400 : ℝ)) - 164| / Real.sqrt 14024) ∧
    detectAnomalies ex5 = [] := by
  refine ⟨?_, by norm_num [meanOf, ex5, mkAgg], ?_, ?_, detectAnomalies_ex5⟩
  · have hsort : sortByDate ex5 = ex5 := by decide
    rw [calculateTrends, if_neg (by decide), hsort, if_neg (by decide)]
    norm_num [ex5, mkAgg]
  · rw [varianceOf, show meanOf ex5 = 164 by norm_num [meanOf, ex5, mkAgg]]
    norm_num [ex5, mkAgg]
  · rw [show |((400 : ℝ)) - 164| = |(236 : ℝ)| by norm_num,
      abs_div_sqrt_gt_two_iff 236 14024 (by norm_num)]
    norm_num

lemma range_foldl_sel_spec (f : ℕ → ℚ) (p : ℚ → ℚ → Prop) [DecidableRel p]
    (htrans : ∀ a b c, p a b → ¬ p c b → ¬ p c a) (hirr : ∀ a, ¬ p a a) (n : ℕ) :
    ((List.range n).foldl (fun best i => if p (f i) (f best) then i else best) 0 = 0 ∨
      (List.range n).foldl (fun best i => if p (f i) (f best) then i else best) 0 < n) ∧
    ∀ i < n, ¬ p (f i)
      (f ((List.range n).foldl (fun best i => if p (f i) (f best) then i else best) 0)) := by
  induction n with
  | zero => simp
  | succ n ih =>
    rw [List.range_succ, List.foldl_append, List.foldl_cons, List.foldl_nil]
    obtain ⟨ihb, ihm⟩ := ih
    by_cases hp : p (f n)
        (f ((List.range n).foldl (fun best i => if p (f i) (f best) then i else best) 0))
    · rw [if_pos hp]
      refine ⟨Or.inr (Nat.lt_succ_self n), ?_⟩
      intro i hi
      rcases Nat.lt_succ_iff_lt_or_eq.mp hi with hi' | hi'
      · exact htrans _ _ _ hp (ihm i hi')
      · subst hi'
        exact hirr _
    · rw [if_neg hp]
      refine ⟨?_, ?_⟩
      · rcases ihb with h | h
        · exact Or.inl h
        · exact Or.inr (Nat.lt_succ_of_lt h)
      · intro i hi
        rcases Nat.lt_succ_iff_lt_or_eq.mp hi with hi' | hi'
        · exact ihm i hi'
        · subst hi'; exact hp

lemma peakIdxOf_spec (sorted : List DailyAggregate) :
    (peakIdxOf sorted = 0 ∨ peakIdxOf sorted < sorted.length) ∧
    ∀ i < sorted.length,
      (sorted.getD i dfltAgg).clicks ≤ (sorted.getD (peakIdxOf sorted) dfltAgg).clicks := by
  have h := range_foldl_sel_spec (fun i => (sorted.getD i dfltAgg).clicks)
    (fun x y => x > y) (fun a b c hab hcb hca => hcb (lt_trans hab hca))
    (fun a => lt_irrefl a) sorted.length
  refine ⟨h.1, fun i hi => not_lt.mp (h.2 i hi)⟩

lemma troughIdxOf_spec (sorted : List DailyAggregate) :
    (troughIdxOf sorted = 0 ∨ troughIdxOf sorted < sorted.length) ∧
    ∀ i < sorted.length,
      (sorted.getD (troughIdxOf sorted) dfltAgg).clicks ≤ (sorted.getD i dfltAgg).clicks := by
  have h := range_foldl_sel_spec (fun i => (sorted.getD i dfltAgg).clicks)
    (fun x y => x < y) (fun a b c hab hcb hca => hcb (lt_trans hca hab))
    (fun a => lt_irrefl a) sorted.length
  refine ⟨h.1, fun i hi => not_lt.mp (h.2 i hi)⟩

lemma sampledIndices_eq (sorted : List DailyAggregate) (maxPoints : ℕ) :
    sampledIndices sorted maxPoints =
      (List.range sorted.length).filter
        (fun i => i % ((sorted.length + maxPoints - 1) / maxPoints) = 0 || i = 0
          || i = sorted.length - 1 || i = peakIdxOf sorted || i = troughIdxOf sorted) := rfl

lemma sampledIndices_pairwise (sorted : List DailyAggregate) (maxPoints : ℕ) :
    (sampledIndices sorted maxPoints).Pairwise (· < ·) := by
  rw [sampledIndices_eq]
  exact List.Pairwise.filter _ (List.pairwise_lt_range _)

lemma mem_sampledIndices_lt (sorted : List DailyAggregate) (maxPoints : ℕ) {i : ℕ}
    (h : i ∈ sampledIndices sorted maxPoints) : i < sorted.length := by
  rw [sampledIndices_eq] at h
  exact List.mem_range.mp (List.mem_filter.mp h).1

lemma zero_mem_sampledIndices (sorted : List DailyAggregate) (maxPoints : ℕ)
    (h : 0 < sorted.length) : 0 ∈ sampledIndices sorted maxPoints := by
  rw [sampledIndices_eq]
  refine List.mem_filter.mpr ⟨List.mem_range.mpr h, ?_⟩
  simp

lemma last_mem_sampledIndices (sorted : List DailyAggregate) (maxPoints : ℕ)
    (h : 0 < sorted.length) : sorted.length - 1 ∈ sampledIndices sorted maxPoints := by
  rw [sampledIndices_eq]
  refine List.mem_filter.mpr ⟨List.mem_range.mpr (by omega), ?_⟩
  simp

lemma peak_mem_sampledIndices (sorted : List DailyAggregate) (maxPoints : ℕ)
    (h : 0 < sorted.length) : peakIdxOf sorted ∈ sampledIndices sorted maxPoints := by
  rw [sampledIndices_eq]
  have hlt : peakIdxOf sorted < sorted.length := by
    rcases (peakIdxOf_spec sorted).1 with h' | h' <;> omega
  refine List.mem_filter.mpr ⟨List.mem_range.mpr hlt, ?_⟩
  simp

lemma trough_mem_sampledIndices (sorted : List DailyAggregate) (maxPoints : ℕ)
    (h : 0 < sorted.length) : troughIdxOf sorted ∈ sampledIndices sorted maxPoints := by
  rw [sampledIndices_eq]
  have hlt : troughIdxOf sorted < sorted.length := by
    rcases (troughIdxOf_spec sorted).1 with h' | h' <;> omega
  refine List.mem_filter.mpr ⟨List.mem_range.mpr hlt, ?_⟩
  simp

lemma downsampleSeries_eq (series : List DailyAggregate) (maxPoints : ℕ)
    (h : maxPoints < series.length) :
    downsampleSeries series maxPoints =
      (if (sampledIndices (sortByDate series) maxPoints).length > maxPoints
        then (sampledIndices (sortByDate series) maxPoints).take maxPoints
        else sampledIndices (sortByDate series) maxPoints).map
        (fun i => (sortByDate series).getD i dfltAgg) := by
  rw [downsampleSeries, if_neg (by omega)]

lemma downsampleSeries_length_le (series : List DailyAggregate) (maxPoints : ℕ)
    (h : maxPoints < series.length) :
    (downsampleSeries series maxPoints).length ≤ maxPoints := by
  rw [downsampleSeries_eq _ _ h, List.length_map]
  split
  · simp [List.length_take]
  · omega

lemma length_sortByDate (series : List DailyAggregate) :
    (sortByDate series).length = series.length := by
  rw [sortByDate]
  exact List.length_insertionSort _ _

lemma mem_downsample_of_no_trunc (series : List DailyAggregate) (maxPoints : ℕ)
    (h2 : maxPoints < series.length)
    (hlen : (sampledIndices (sortByDate series) maxPoints).length ≤ maxPoints)
    {i : ℕ} (hi : i ∈ sampledIndices (sortByDate series) maxPoints) :
    (sortByDate series).getD i dfltAgg ∈ downsampleSeries series maxPoints := by
  rw [downsampleSeries_eq _ _ h2, if_neg (by omega)]
  exact List.mem_map_of_mem _ hi

lemma head_mem_downsampleSeries (series : List DailyAggregate) (maxPoints : ℕ)
    (h1 : 1 ≤ maxPoints) (h2 : maxPoints < series.length) :
    (sortByDate series).getD 0 dfltAgg ∈ downsampleSeries series maxPoints := by
  have hn : 0 < (sortByDate series).length := by rw [length_sortByDate]; omega
  have h0 : 0 ∈ sampledIndices (sortByDate series) maxPoints :=
    zero_mem_sampledIndices _ _ hn
  obtain ⟨hd, tl, heq⟩ := List.exists_cons_of_ne_nil (List.ne_nil_of_mem h0)
  have hhd : hd = 0 := by
    rw [heq] at h0
    rcases List.mem_cons.mp h0 with h' | h'
    · exact h'.symm
    · have hpw := sampledIndices_pairwise (sortByDate series) maxPoints
      rw [heq, List.pairwise_cons] at hpw
      exact absurd (hpw.1 0 h') (by omega)
  rw [downsampleSeries_eq _ _ h2]
  refine List.mem_map.mpr ⟨0, ?_, rfl⟩
  split
  · rw [heq]
    obtain ⟨m, rfl⟩ := Nat.exists_eq_add_of_le h1
    rw [Nat.add_comm, List.take_succ_cons]
    exact hhd ▸ List.mem_cons_self _ _
  · exact h0

lemma lexLe_total : ∀ as bs : List Char, lexLe as bs = true ∨ lexLe bs as = true := by
  intro as
  induction as with
  | nil => intro bs; left; rfl
  | cons a at1 ih =>
    intro bs
    cases bs with
    | nil => right; rfl
    | cons b bt =>
      rcases lt_trichotomy a b with h | h | h
      · left; simp [lexLe, h]
      · subst h
        rcases ih bt with h' | h'
        · left; simp [lexLe, lt_irrefl, h']
        · right; simp [lexLe, lt_irrefl, h']
      · right; simp [lexLe, h]

lemma lexLe_trans : ∀ as bs cs : List Char,
    lexLe as bs = true → lexLe bs cs = true → lexLe as cs = true := by
  intro as
  induction as with
  | nil => intro bs cs _ _; rfl
  | cons a at1 ih =>
    intro bs cs h1 h2
    cases bs with
    | nil => simp [lexLe] at h1
    | cons b bt =>
      cases cs with
      | nil => simp [lexLe] at h2
      | cons c ct =>
        rcases lt_trichotomy a b with hab | hab | hab
        · rcases lt_trichotomy b c with hbc | hbc | hbc
          · simp [lexLe, lt_trans hab hbc]
          · subst hbc; simp [lexLe, hab]
          · simp [lexLe, hbc, lt_asymm hbc] at h2
        · subst hab
          rcases lt_trichotomy a c with hac | hac | hac
          · simp [lexLe, hac]
          · subst hac
            simp only [lexLe, lt_irrefl, if_neg (lt_irrefl a)] at h1 h2 ⊢
            simp only [reduceIte] at h1 h2 ⊢
            exact ih bt ct h1 h2
          · simp [lexLe, hac, lt_asymm hac] at h2
        · simp [lexLe, hab, lt_asymm hab] at h1

instance dateLeTotal : IsTotal DailyAggregate (fun a b => dateLe a.date b.date = true) :=
  ⟨fun a b => lexLe_total a.date.data b.date.data⟩

instance dateLeTrans : IsTrans DailyAggregate (fun a b => dateLe a.date b.date = true) :=
  ⟨fun a b c h1 h2 => lexLe_trans a.date.data b.date.data c.date.data h1 h2⟩

lemma map_getD_sublist :
    ∀ (l : List DailyAggregate) (is : List ℕ), is.Pairwise (· < ·) →
      (∀ i ∈ is, i < l.length) → (is.map (fun i => l.getD i dfltAgg)).Sublist l := by
  intro l
  induction l with
  | nil =>
    intro is _ hb
    cases is with
    | nil => simp
    | cons i t => exact absurd (hb i (List.mem_cons_self _ _)) (by simp)
  | cons x l ih =>
    intro is hpw hb
    cases is with
    | nil => simp
    | cons i t =>
      rw [List.pairwise_cons] at hpw
      by_cases hi : i = 0
      · subst hi
        have ht : ∀ j ∈ t, 1 ≤ j := fun j hj => hpw.1 j hj
        have hmap : t.map (fun j => (x :: l).getD j dfltAgg) =
            (t.map (fun j => j - 1)).map (fun j => l.getD j dfltAgg) := by
          rw [List.map_map]
          apply List.map_congr_left
          intro j hj
          obtain ⟨m, rfl⟩ := Nat.exists_eq_add_of_le (ht j hj)
          simp [List.getD, Nat.add_comm 1 m]
        rw [List.map_cons, hmap]
        refine List.Sublist.cons₂ x (ih _ ?_ ?_)
        · refine (List.pairwise_map.mpr ?_)
          refine hpw.2.imp_of_mem ?_
          intro a b ha hb' hab
          have := ht a ha
          omega
        · intro j hj
          rcases List.mem_map.mp hj with ⟨j', hj', rfl⟩
          have hj1 := hb j' (List.mem_cons_of_mem _ hj')
          have hj2 := ht j' hj'
          simp at hj1 ⊢
          omega
      · have hall : ∀ j ∈ i :: t, 1 ≤ j := by
          intro j hj
          rcases List.mem_cons.mp hj with rfl | hj'
          · omega
          · have := hpw.1 j hj'
            omega
        have hmap : (i :: t).map (fun j => (x :: l).getD j dfltAgg) =
            ((i :: t).map (fun j => j - 1)).map (fun j => l.getD j dfltAgg) := by
          rw [List.map_map]
          apply List.map_congr_left
          intro j hj
          obtain ⟨m, rfl⟩ := Nat.exists_eq_add_of_le (hall j hj)
          simp [List.getD, Nat.add_comm 1 m]
        rw [hmap]
        refine List.Sublist.cons x (ih _ ?_ ?_)
        · refine (List.pairwise_map.mpr ?_)
          refine (List.pairwise_cons.mpr ⟨hpw.1, hpw.2⟩).imp_of_mem ?_
          intro a b ha hb' hab
          have := hall a ha
          omega
        · intro j hj
          rcases List.mem_map.mp hj with ⟨j', hj', rfl⟩
          have hj1 := hb j' hj'
          have hj2 := hall j' hj'
          simp at hj1 ⊢
          omega

lemma getD_zero_eq_headD (l : List DailyAggregate) (d : DailyAggregate) :
    l.getD 0 d = l.headD d := by
  cases l <;> rfl

lemma getD_pred_length_eq_getLastD (l : List DailyAggregate) (d : DailyAggregate)
    (h : l ≠ []) : l.getD (l.length - 1) d = l.getLastD d := by
  rw [List.getLastD_eq_getLast?, List.getLast?_eq_getLast l h, Option.getD_some,
    List.getLast_eq_getElem]
  exact List.getD_eq_getElem l d (by
    have : 0 < l.length := List.length_pos.mpr h
    omega)

lemma downsample_retains (series : List DailyAggregate) (maxPoints : ℕ)
    (h2 : maxPoints < series.length)
    (hlen : (sampledIndices (sortByDate series) maxPoints).length ≤ maxPoints) :
    (sortByDate series).getLastD dfltAgg ∈ downsampleSeries series maxPoints ∧
    (∃ p ∈ downsampleSeries series maxPoints, ∀ s ∈ series, s.clicks ≤ p.clicks) ∧
    (∃ t ∈ downsampleSeries series maxPoints, ∀ s ∈ series, t.clicks ≤ s.clicks) := by
  have hn : 0 < (sortByDate series).length := by rw [length_sortByDate]; omega
  have hne : sortByDate series ≠ [] := by
    intro h
    rw [h] at hn
    simp at hn
  refine ⟨?_, ?_, ?_⟩
  · have := mem_downsample_of_no_trunc series maxPoints h2 hlen
      (last_mem_sampledIndices _ maxPoints hn)
    rwa [getD_pred_length_eq_getLastD _ _ hne] at this
  · refine ⟨(sortByDate series).getD (peakIdxOf (sortByDate series)) dfltAgg,
      mem_downsample_of_no_trunc series maxPoints h2 hlen
        (peak_mem_sampledIndices _ maxPoints hn), ?_⟩
    intro s hs
    have hs' : s ∈ sortByDate series := by
      rw [sortByDate, List.mem_insertionSort]
      exact hs
    rcases List.mem_iff_getElem.mp hs' with ⟨j, hj, hjs⟩
    have hmax := (peakIdxOf_spec (sortByDate series)).2 j hj
    rwa [List.getD_eq_getElem _ _ hj, hjs] at hmax
  · refine ⟨(sortByDate series).getD (troughIdxOf (sortByDate series)) dfltAgg,
      mem_downsample_of_no_trunc series maxPoints h2 hlen
        (trough_mem_sampledIndices _ maxPoints hn), ?_⟩
    intro s hs
    have hs' : s ∈ sortByDate series := by
      rw [sortByDate, List.mem_insertionSort]
      exact hs
    rcases List.mem_iff_getElem.mp hs' with ⟨j, hj, hjs⟩
    have hmin := (troughIdxOf_spec (sortByDate series)).2 j hj
    rwa [List.getD_eq_getElem _ _ hj, hjs] at hmin

/-- C2 (amended): for more than `maxPoints ≥ 1` entries, the output has at
most `maxPoints` entries and always keeps the first record of the date-sorted
slice; the last record and a maximum- and minimum-clicks record are kept
whenever the sampled index set (uniform stride plus the four special indices)
still fits within `maxPoints` — the final truncation keeps the lowest
`maxPoints` indices and can drop them otherwise. -/
theorem downsampleSeries_bounds (series : List DailyAggregate) (maxPoints : ℕ)
    (h1 : 1 ≤ maxPoints) (h2 : maxPoints < series.length) :
    (downsampleSeries series maxPoints).length ≤ maxPoints ∧
    (sortByDate series).headD dfltAgg ∈ downsampleSeries series maxPoints ∧
    ((sampledIndices (sortByDate series) maxPoints).length ≤ maxPoints →
      (sortByDate series).getLastD dfltAgg ∈ downsampleSeries series maxPoints ∧
      (∃ p ∈ downsampleSeries series maxPoints, ∀ s ∈ series, s.clicks ≤ p.clicks) ∧
      (∃ t ∈ downsampleSeries series maxPoints, ∀ s ∈ series, t.clicks ≤ s.clicks)) := by
  refine ⟨downsampleSeries_length_le series maxPoints h2, ?_,
    fun hlen => downsample_retains series maxPoints h2 hlen⟩
  have := head_mem_downsampleSeries series maxPoints h1 h2
  rwa [getD_zero_eq_headD] at this

/-- The 7-day counterexample series: peak on day 2, trough on day 3. -/
def ex7 : List DailyAggregate :=
  [mkAgg "2024-01-01" 5, mkAgg "2024-01-02" 9, mkAgg "2024-01-03" 1,
   mkAgg "2024-01-04" 5, mkAgg "2024-01-05" 5, mkAgg "2024-01-06" 5,
   mkAgg "2024-01-07" 5]

/-- C2 counterexample: on the 7-point series `ex7` with `maxPoints = 3`, the
final truncation drops the last record of the date-sorted slice (the sampled
index set is `{0,1,2,3,6}`, and `slice(0,3)` keeps `[0,1,2]`). -/
theorem downsampleSeries_bounds_counterexample :
    3 < ex7.length ∧
    (sortByDate ex7).getLastD dfltAgg ∉ downsampleSeries ex7 3 := by
  constructor
  · decide
  · decide

/-- C2 witness: on `ex7` with `maxPoints = 5` the sampled index set
`{0,1,2,4,6}` fits, so every guarantee of the amended claim holds. -/
theorem downsampleSeries_bounds_witness :
    (downsampleSeries ex7 5).length ≤ 5 ∧
    (sortByDate ex7).headD dfltAgg ∈ downsampleSeries ex7 5 ∧
    ((sampledIndices (sortByDate ex7) 5).length ≤ 5 →
      (sortByDate ex7).getLastD dfltAgg ∈ downsampleSeries ex7 5 ∧
      (∃ p ∈ downsampleSeries ex7 5, ∀ s ∈ ex7, s.clicks ≤ p.clicks) ∧
      (∃ t ∈ downsampleSeries ex7 5, ∀ s ∈ ex7, t.clicks ≤ s.clicks)) :=
  downsampleSeries_bounds ex7 5 (by decide) (by decide)

/-- C10: the downsampled output is a subsequence of the date-sorted input
(indices strictly ascending, none selected twice), and is itself sorted by
date key. -/
theorem downsampleSeries_subsequence (series : List DailyAggregate) (maxPoints : ℕ)
    (h1 : 1 ≤ maxPoints) (h2 : maxPoints < series.length) :
    (downsampleSeries series maxPoints).Sublist (sortByDate series) ∧
    (downsampleSeries series maxPoints).Pairwise
      (fun a b => dateLe a.date b.date = true) := by
  have hsub : (downsampleSeries series maxPoints).Sublist (sortByDate series) := by
    rw [downsampleSeries_eq _ _ h2]
    set indices := sampledIndices (sortByDate series) maxPoints with hind
    have hpw : indices.Pairwise (· < ·) := sampledIndices_pairwise _ _
    have hb : ∀ i ∈ indices, i < (sortByDate series).length :=
      fun i hi => mem_sampledIndices_lt _ _ hi
    split
    · exact map_getD_sublist _ _ (hpw.sublist (List.take_sublist _ _))
        (fun i hi => hb i ((List.take_sublist _ _).mem hi))
    · exact map_getD_sublist _ _ hpw hb
  refine ⟨hsub, List.Pairwise.sublist hsub ?_⟩
  rw [sortByDate]
  exact List.sorted_insertionSort _ _

/-- C10 witness: the subsequence theorem instantiated on `ex7` with
`maxPoints = 3`. -/
theorem downsampleSeries_subsequence_witness :
    (downsampleSeries ex7 3).Sublist (sortByDate ex7) ∧
    (downsampleSeries ex7 3).Pairwise (fun a b => dateLe a.date b.date = true) :=
  downsampleSeries_subsequence ex7 3 (by decide) (by decide)

lemma length_filter_or_le (l : List ℕ) (p q : ℕ → Bool) (a b : ℕ)
    (himp : ∀ i ∈ l, p i = true → q i = true ∨ i = a ∨ i = b) :
    (l.filter p).length ≤ (l.filter q).length +
      (l.filter (fun i => i = a)).length + (l.filter (fun i => i = b)).length := by
  induction l with
  | nil => simp
  | cons x t ih =>
    have hx := himp x (List.mem_cons_self _ _)
    have ih' := ih (fun i hi hpi => himp i (List.mem_cons_of_mem _ hi) hpi)
    simp only [List.filter_cons]
    split_ifs with h1 h2 h3 h4 h5 h6 h7 h8 h9 h10 h11 h12 h13 h14
    all_goals try simp only [List.length_cons]
    all_goals try omega
    all_goals (exfalso; rcases hx h1 with h | h | h)
    all_goals simp_all

lemma length_filter_eq_le_one (l : List ℕ) (hnd : l.Nodup) (a : ℕ) :
    (l.filter (fun i => i = a)).length ≤ 1 := by
  induction l with
  | nil => simp
  | cons x t ih =>
    rw [List.nodup_cons] at hnd
    by_cases hx : x = a
    · subst hx
      rw [List.filter_cons_of_pos (by simp)]
      rw [show t.filter (fun i => i = x) = [] from
        List.filter_eq_nil_iff.mpr (fun i hi => by
          simp only [decide_eq_true_eq]
          intro hix
          exact hnd.1 (hix ▸ hi))]
      simp
    · rw [List.filter_cons_of_neg (by simp [hx])]
      exact ih hnd.2

lemma sampledIndices_365_60_le (sorted : List DailyAggregate)
    (h : sorted.length = 365) : (sampledIndices sorted 60).length ≤ 60 := by
  rw [sampledIndices_eq, h]
  norm_num
  have hbound := length_filter_or_le (List.range 365)
    (fun i => i % 7 = 0 || i = 0 || i = 364 || i = peakIdxOf sorted
      || i = troughIdxOf sorted)
    (fun i => i % 7 = 0) (peakIdxOf sorted) (troughIdxOf sorted)
    (by
      intro i _ hp
      simp only [Bool.or_eq_true, decide_eq_true_eq] at hp ⊢
      rcases hp with ((((h' | h') | h') | h') | h')
      · exact Or.inl h'
      · subst h'; exact Or.inl (by norm_num)
      · subst h'; exact Or.inl (by norm_num)
      · exact Or.inr (Or.inl h')
      · exact Or.inr (Or.inr h'))
  have h53 : ((List.range 365).filter (fun i => i % 7 = 0)).length = 53 := by decide
  have hpk := length_filter_eq_le_one (List.range 365) (List.nodup_range 365)
    (peakIdxOf sorted)
  have htr := length_filter_eq_le_one (List.range 365) (List.nodup_range 365)
    (troughIdxOf sorted)
  omega

/-- C8: for every 365-point series, downsampling with `maxPoints = 60`
returns at most 60 points (in fact at most 55 indices are sampled, so no
truncation occurs) and keeps the first and last records of the date-sorted
series and a maximum- and a minimum-clicks record. -/
theorem downsampleSeries_365_60 (series : List DailyAggregate)
    (h : series.length = 365) :
    (downsampleSeries series 60).length ≤ 60 ∧
    (sortByDate series).headD dfltAgg ∈ downsampleSeries series 60 ∧
    (sortByDate series).getLastD dfltAgg ∈ downsampleSeries series 60 ∧
    (∃ p ∈ downsampleSeries series 60, ∀ s ∈ series, s.clicks ≤ p.clicks) ∧
    (∃ t ∈ downsampleSeries series 60, ∀ s ∈ series, t.clicks ≤ s.clicks) := by
  have h2 : 60 < series.length := by omega
  have hlen : (sampledIndices (sortByDate series) 60).length ≤ 60 :=
    sampledIndices_365_60_le _ (by rw [length_sortByDate, h])
  obtain ⟨hl, hp, ht⟩ := downsample_retains series 60 h2 hlen
  refine ⟨downsampleSeries_length_le series 60 h2, ?_, hl, hp, ht⟩
  have := head_mem_downsampleSeries series 60 (by omega) h2
  rwa [getD_zero_eq_headD] at this

/-- A 365-point sample series with clicks `0, 1, ..., 364`. -/
def series365 : List DailyAggregate :=
  (List.range 365).map (fun i : ℕ => mkAgg "2024-01-01" (i : ℚ))

/-- C8 witness: the 365-point theorem instantiated on `series365`. -/
theorem downsampleSeries_365_60_witness :
    (downsampleSeries series365 60).length ≤ 60 ∧
    (sortByDate series365).headD dfltAgg ∈ downsampleSeries series365 60 ∧
    (sortByDate series365).getLastD dfltAgg ∈ downsampleSeries series365 60 ∧
    (∃ p ∈ downsampleSeries series365 60, ∀ s ∈ series365, s.clicks ≤ p.clicks) ∧
    (∃ t ∈ downsampleSeries series365 60, ∀ s ∈ series365, t.clicks ≤ s.clicks) :=
  downsampleSeries_365_60 series365 (by simp [series365])

/-- A duplicate header row as delivered by the parser. -/
def hdrRec : ParsedRecord :=
  ⟨some "analytics_date", none, none, none, none, none, none, none, none⟩

lemma parseLoop_characterization :
    ∀ (records : List ParsedRecord) (rc ec : ℕ) (acc : List CSVRow),
      parseLoop records rc ec acc =
          .error "Too many invalid rows. CSV file may be corrupted." ∨
      ∃ ecOut rows, parseLoop records rc ec acc = .ok (rc + records.length, ecOut, rows) := by
  intro records
  induction records with
  | nil =>
    intro rc ec acc
    exact Or.inr ⟨ec, acc.reverse, by simp [parseLoop]⟩
  | cons r rest ih =>
    intro rc ec acc
    by_cases hhdr : r.analytics_date = some "analytics_date"
    · rw [show parseLoop (r :: rest) rc ec acc = parseLoop rest (rc + 1) ec acc by
        simp [parseLoop, hhdr]]
      rcases ih (rc + 1) ec acc with h | ⟨ecOut, rows, h⟩
      · exact Or.inl h
      · refine Or.inr ⟨ecOut, rows, ?_⟩
        rw [h]
        have : rc + 1 + rest.length = rc + (r :: rest).length := by
          simp
          omega
        rw [this]
    · by_cases hblank : jsTrim (r.analytics_date.getD "") = ""
      · by_cases hbudget : ec + 1 > maxErrors
        · exact Or.inl (by simp [parseLoop, hhdr, hblank, hbudget])
        · rw [show parseLoop (r :: rest) rc ec acc = parseLoop rest (rc + 1) (ec + 1) acc by
            simp [parseLoop, hhdr, hblank, hbudget]]
          rcases ih (rc + 1) (ec + 1) acc with h | ⟨ecOut, rows, h⟩
          · exact Or.inl h
          · refine Or.inr ⟨ecOut, rows, ?_⟩
            rw [h]
            have : rc + 1 + rest.length = rc + (r :: rest).length := by
              simp
              omega
            rw [this]
      · rw [show parseLoop (r :: rest) rc ec acc =
            parseLoop rest (rc + 1) ec (mkRow r :: acc) by
              simp [parseLoop, hhdr, hblank]]
        rcases ih (rc + 1) ec (mkRow r :: acc) with h | ⟨ecOut, rows, h⟩
        · exact Or.inl h
        · refine Or.inr ⟨ecOut, rows, ?_⟩
          rw [h]
          have : rc + 1 + rest.length = rc + (r :: rest).length := by
            simp
            omega
          rw [this]

/-- The predicate selecting the rows the loop counts as date-key errors. -/
def blankDate (r : ParsedRecord) : Bool := decide (jsTrim (r.analytics_date.getD "") = "")

lemma parseLoop_all_skipped :
    ∀ (records : List ParsedRecord) (rc ec : ℕ) (acc : List CSVRow),
      (∀ r ∈ records, r.analytics_date = some "analytics_date" ∨
        jsTrim (r.analytics_date.getD "") = "") →
      ec + (records.filter blankDate).length ≤ maxErrors →
      parseLoop records rc ec acc =
        .ok (rc + records.length, ec + (records.filter blankDate).length, acc.reverse) := by
  intro records
  induction records with
  | nil =>
    intro rc ec acc _ _
    simp [parseLoop]
  | cons r rest ih =>
    intro rc ec acc hall hbudget
    have harith : rc + 1 + rest.length = rc + (r :: rest).length := by
      simp
      omega
    rcases hall r (List.mem_cons_self _ _) with hhdr | hblank
    · have hnotblank : ¬ jsTrim (r.analytics_date.getD "") = "" := by
        rw [hhdr]
        decide
      have hfil : (r :: rest).filter blankDate = rest.filter blankDate :=
        List.filter_cons_of_neg (by simp [blankDate, hnotblank])
      rw [show parseLoop (r :: rest) rc ec acc = parseLoop rest (rc + 1) ec acc by
          simp [parseLoop, hhdr],
        ih (rc + 1) ec acc (fun x hx => hall x (List.mem_cons_of_mem _ hx))
          (by rw [hfil] at hbudget; exact hbudget),
        harith, hfil]
    · have hhdr : ¬ r.analytics_date = some "analytics_date" := by
        intro h
        rw [h] at hblank
        exact absurd hblank (by decide)
      have hfil : (r :: rest).filter blankDate = r :: rest.filter blankDate :=
        List.filter_cons_of_pos (by simp [blankDate, hblank])
      rw [hfil, List.length_cons] at hbudget ⊢
      have hnover : ¬ ec + 1 > maxErrors := by omega
      rw [show parseLoop (r :: rest) rc ec acc = parseLoop rest (rc + 1) (ec + 1) acc by
          simp [parseLoop, hhdr, hblank, hnover],
        ih (rc + 1) (ec + 1) acc (fun x hx => hall x (List.mem_cons_of_mem _ hx))
          (by omega),
        harith]
      have : ec + 1 + (rest.filter blankDate).length =
          ec + ((rest.filter blankDate).length + 1) := by omega
      rw [this]
      simp [List.length_cons]

/-- A row whose date key is whitespace-only: counted and skipped as a
date-key error. -/
def blankRec : ParsedRecord :=
  ⟨some "  ", none, none, none, none, none, none, none, none⟩

/-- C6 counterexample: a stream consisting of one duplicate header row yields
zero records yet completes normally (no error) — `rowCount` is 1, not 0. -/
theorem streamParseCSV_zero_yield_counterexample :
    streamParseCSV [hdrRec] = .ok [] := rfl

/-- C6 (amended): `streamParseCSV` raises the empty-source error exactly when
the underlying parser produced zero rows (the input stream is empty); and a
nonempty stream whose rows are all skipped — as duplicate headers or as
date-key errors whose count stays within the 100-error budget — completes
normally yielding zero records. -/
theorem streamParseCSV_zero_yield :
    (∀ records : List ParsedRecord,
      streamParseCSV records =
          .error "CSV file is empty or contains no valid data rows" ↔
        records = []) ∧
    ∀ records : List ParsedRecord, records ≠ [] →
      (∀ r ∈ records, r.analytics_date = some "analytics_date" ∨
        jsTrim (r.analytics_date.getD "") = "") →
      (records.filter blankDate).length ≤ maxErrors →
      streamParseCSV records = .ok [] := by
  constructor
  · intro records
    constructor
    · intro h
      by_contra hne
      rcases parseLoop_characterization records 0 0 [] with herr | ⟨ecOut, rows, hok⟩
      · rw [streamParseCSV, herr] at h
        simp only [Except.error.injEq] at h
        exact absurd h (by decide)
      · rw [streamParseCSV, hok] at h
        have hlen : ¬ (0 + records.length = 0) := by
          simpa using hne
        simp [hlen] at h
        exact hne h
    · rintro rfl
      rfl
  · intro records hne hall hbudget
    have h := parseLoop_all_skipped records 0 0 [] hall (by omega)
    rw [streamParseCSV, h]
    have hlen : ¬ (0 + records.length = 0) := by
      simpa using hne
    simp [hlen]
    exact hne

/-- C6 witness: the iff instantiated on a nonempty stream, and the amended
normal completion on a stream mixing a duplicate header with a date-key
error row. -/
theorem streamParseCSV_zero_yield_witness :
    (streamParseCSV [hdrRec, hdrRec] =
        .error "CSV file is empty or contains no valid data rows" ↔
      [hdrRec, hdrRec] = ([] : List ParsedRecord)) ∧
    streamParseCSV [hdrRec, blankRec] = .ok [] :=
  ⟨streamParseCSV_zero_yield.1 [hdrRec, hdrRec],
    streamParseCSV_zero_yield.2 [hdrRec, blankRec] (by decide) (by decide) (by decide)⟩

lemma mapGet_cons_self {α : Type} (k : String) (v : α) (m : List (String × α)) :
    mapGet ((k, v) :: m) k = some v := by
  simp [mapGet]

lemma checkLimit_fresh (identifier : String) (now : ℚ) :
    checkLimit insightsRateLimiter identifier now =
      (true, ⟨[(identifier, ⟨9, now⟩)], 10, 10 / 60000⟩) := by
  simp only [checkLimit, insightsRateLimiter, mkRateLimiter, mapGet, Option.getD_none]
  norm_num [mapSet]

lemma checkLimit_bucket_step (identifier : String) (now t : ℚ)
    (ht1 : 1 ≤ t) (ht10 : t ≤ 10) :
    checkLimit ⟨[(identifier, ⟨t, now⟩)], 10, 10 / 60000⟩ identifier now =
      (true, ⟨[(identifier, ⟨t - 1, now⟩)], 10, 10 / 60000⟩) := by
  simp only [checkLimit, mapGet_cons_self, Option.getD_some]
  rw [sub_self, zero_mul, add_zero, min_eq_right ht10, if_pos (by exact ht1)]
  simp [mapSet]

lemma checkLimit_bucket_reject (identifier : String) (now t : ℚ) (ht : t < 1) :
    checkLimit ⟨[(identifier, ⟨t, now⟩)], 10, 10 / 60000⟩ identifier now =
      (false, ⟨[(identifier, ⟨t, now⟩)], 10, 10 / 60000⟩) := by
  simp only [checkLimit, mapGet_cons_self, Option.getD_some]
  rw [sub_self, zero_mul, add_zero,
    min_eq_right (by linarith : t ≤ (10:ℚ)), if_neg (by simp; linarith)]
  simp [mapSet]

lemma checkN_from (identifier : String) (now : ℚ) :
    ∀ (k : ℕ) (t : ℚ), (k : ℚ) ≤ t → t ≤ 10 →
      checkN ⟨[(identifier, ⟨t, now⟩)], 10, 10 / 60000⟩ identifier now k =
        (List.replicate k true, ⟨[(identifier, ⟨t - k, now⟩)], 10, 10 / 60000⟩) := by
  intro k
  induction k with
  | zero =>
    intro t _ _
    simp [checkN]
  | succ k ih =>
    intro t hk ht10
    have h1 : (1 : ℚ) ≤ t := by
      have : ((k + 1 : ℕ) : ℚ) = (k : ℚ) + 1 := by push_cast; ring
      rw [this] at hk
      have : (0:ℚ) ≤ (k : ℚ) := Nat.cast_nonneg k
      linarith
    rw [checkN]
    simp only [checkLimit_bucket_step identifier now t h1 ht10]
    rw [ih (t - 1) (by push_cast at hk ⊢; linarith) (by linarith)]
    have : t - 1 - (k : ℚ) = t - ((k + 1 : ℕ) : ℚ) := by push_cast; ring
    rw [this]
    rfl

lemma checkN_add (s : RateLimiterState) (identifier : String) (now : ℚ) (m n : ℕ) :
    checkN s identifier now (m + n) =
      ((checkN s identifier now m).1 ++
        (checkN (checkN s identifier now m).2 identifier now n).1,
        (checkN (checkN s identifier now m).2 identifier now n).2) := by
  induction m generalizing s with
  | zero => simp [checkN]
  | succ m ih =>
    rw [Nat.succ_add, checkN, checkN, ih]
    rfl

/-- C9: the token bucket behaves as claimed.  (a) A fresh caller's first check
is admitted.  (b) For any present bucket, the refill is computed lazily from
elapsed time at the configured rate and capped at capacity; the check is
admitted iff at least one token is available after refill, an admitted check
consumes exactly one token, and a rejected check leaves the refilled balance.
(c) With no elapsed time, a fresh caller against the capacity-10 limiter is
admitted exactly 10 times and rejected on the 11th check. -/
theorem checkLimit_token_bucket :
    (∀ (identifier : String) (now : ℚ),
      (checkLimit insightsRateLimiter identifier now).1 = true) ∧
    (∀ (s : RateLimiterState) (identifier : String) (now : ℚ) (b : Bucket),
      mapGet s.buckets identifier = some b →
      (((checkLimit s identifier now).1 = true ↔
          1 ≤ min s.maxTokens (b.tokens + (now - b.lastRefill) * s.refillRate)) ∧
        mapGet ((checkLimit s identifier now).2).buckets identifier =
          some ⟨if 1 ≤ min s.maxTokens (b.tokens + (now - b.lastRefill) * s.refillRate)
              then min s.maxTokens (b.tokens + (now - b.lastRefill) * s.refillRate) - 1
              else min s.maxTokens (b.tokens + (now - b.lastRefill) * s.refillRate),
            now⟩)) ∧
    (∀ (identifier : String) (now : ℚ),
      (checkN insightsRateLimiter identifier now 11).1 =
        List.replicate 10 true ++ [false]) := by
  refine ⟨?_, ?_, ?_⟩
  · intro identifier now
    rw [checkLimit_fresh]
  · intro s identifier now b hb
    simp only [checkLimit, hb, Option.getD_some]
    by_cases hc : 1 ≤ min s.maxTokens (b.tokens + (now - b.lastRefill) * s.refillRate)
    · rw [if_pos (by exact hc), if_pos hc]
      exact ⟨by simp [hc], by simp [mapGet_mapSet_self]⟩
    · rw [if_neg (by exact hc), if_neg hc]
      exact ⟨by simp [hc], by simp [mapGet_mapSet_self]⟩
  · intro identifier now
    rw [show (11 : ℕ) = 1 + (9 + 1) from rfl, checkN_add]
    have hfirst : checkN insightsRateLimiter identifier now 1 =
        ([true], ⟨[(identifier, ⟨9, now⟩)], 10, 10 / 60000⟩) := by
      rw [checkN, checkLimit_fresh]
      rfl
    rw [hfirst, checkN_add,
      checkN_from identifier now 9 9 (by norm_num) (by norm_num)]
    have hreject : checkN ⟨[(identifier, ⟨(9 : ℚ) - (9 : ℕ), now⟩)], 10, 10 / 60000⟩
        identifier now 1 = ([false], ⟨[(identifier, ⟨(9 : ℚ) - (9 : ℕ), now⟩)], 10,
          10 / 60000⟩) := by
      rw [checkN, checkLimit_bucket_reject identifier now _ (by push_cast; norm_num)]
      rfl
    rw [hreject]
    rfl

/-- C9 witness: the token-bucket theorem instantiated at a concrete caller,
concrete instants and a concrete half-full bucket. -/
theorem checkLimit_token_bucket_witness :
    (checkLimit insightsRateLimiter "10.0.0.1" 0).1 = true ∧
    (((checkLimit (⟨[("10.0.0.1", ⟨5, 0⟩)], 10, 10 / 60000⟩ : RateLimiterState)
        "10.0.0.1" 6000).1 = true ↔
      1 ≤ min (10 : ℚ) (5 + (6000 - 0) * (10 / 60000))) ∧
      mapGet ((checkLimit (⟨[("10.0.0.1", ⟨5, 0⟩)], 10, 10 / 60000⟩ : RateLimiterState)
          "10.0.0.1" 6000).2).buckets "10.0.0.1" =
        some ⟨if 1 ≤ min (10 : ℚ) (5 + (6000 - 0) * (10 / 60000))
            then min (10 : ℚ) (5 + (6000 - 0) * (10 / 60000)) - 1
            else min (10 : ℚ) (5 + (6000 - 0) * (10 / 60000)), 6000⟩) ∧
    (checkN insightsRateLimiter "10.0.0.1" 0 11).1 =
      List.replicate 10 true ++ [false] :=
  ⟨checkLimit_token_bucket.1 "10.0.0.1" 0,
    checkLimit_token_bucket.2.1 ⟨[("10.0.0.1", ⟨5, 0⟩)], 10, 10 / 60000⟩
      "10.0.0.1" 6000 ⟨5, 0⟩ (mapGet_cons_self _ _ _),
    checkLimit_token_bucket.2.2 "10.0.0.1" 0⟩
